import Mathlib

set_option maxHeartbeats 1000000

namespace Plump

/-!
Shallow embedding of the plump game core.

The authoritative source is `packages/game-core/src/engine.ts` (the final
bidding + trick + trump variant) together with its reducer
(`initialState` / `applyCommand`) and the `protocol.ts` type declarations.
JavaScript numbers that the engine stores and compares are modelled as `Int`;
string-keyed records are modelled as association lists whose update operation
(`setk`) mirrors JavaScript object spread semantics (update in place, append
if absent).
-/

/-! ### Card model and deterministic shuffle (`cards.ts`)

The source represents a card as the string `${Rank}${Suit}` with
`RANKS = ["A","K","Q","J","10","9","8","7","6","5","4","3","2"]` and
`SUITS = ["♠","♥","♦","♣"]`; `rankIndex` is the position of the rank in
`RANKS` (0 = Ace, lower index = higher rank) and `suitOf` the suit character.
The model represents a card by that (rank index, suit) pair, in bijection
with the 52 card strings, so `rankIndex` and `suitOf` become projections.
`fullDeck` enumerates suit-major (♠, ♥, ♦, ♣), rank-major (A down to 2).
`shuffle` seeds a linear congruential generator with an FNV-1a-style hash of
the seed string (XOR each UTF-16 code unit, then `Math.imul` by 16777619,
all mod 2^32) and runs a Fisher-Yates pass from the last index down to 1,
drawing `next() % (i+1)` at each step. -/

inductive Suit : Type
  | spades
  | hearts
  | diamonds
  | clubs
deriving DecidableEq

structure Card where
  rank : Nat
  suit : Suit
deriving DecidableEq

def rankIndex (c : Card) : Nat := c.rank

def suitOf (c : Card) : Suit := c.suit

def allSuits : List Suit := [Suit.spades, Suit.hearts, Suit.diamonds, Suit.clubs]

def fullDeck : List Card :=
  allSuits.flatMap (fun st => (List.range 13).map (fun r => Card.mk r st))

/-- The UTF-16 code units of a character, in the order `charCodeAt` sees
them (a supplementary-plane character contributes its surrogate pair). -/
def utf16Units (c : Char) : List Nat :=
  if c.toNat < 65536 then [c.toNat]
  else [55296 + (c.toNat - 65536) / 1024, 56320 + (c.toNat - 65536) % 1024]

def hashSeed (seed : String) : Nat :=
  (seed.data.flatMap utf16Units).foldl
    (fun h u => ((Nat.xor h u) * 16777619) % 4294967296) 2166136261

def lcgNext (st : Nat) : Nat := (1664525 * st + 1013904223) % 4294967296

/-- Swap the entries at positions `i` and `j` (the Fisher-Yates swap step). -/
def listSwap {α : Type} (l : List α) (i j : Nat) : List α :=
  match l.get? i, l.get? j with
  | some x, some y => (l.set i y).set j x
  | _, _ => l

/-- The Fisher-Yates swap positions, from the last index down to 1, drawing
`next() mod (i+1)` from the generator at each step. -/
def fySwaps : Nat → Nat → List (Nat × Nat)
  | 0, _ => []
  | i + 1, rng =>
    let r := lcgNext rng
    (i + 1, r % (i + 2)) :: fySwaps i r

def swapSteps {α : Type} : List (Nat × Nat) → List α → List α
  | [], l => l
  | ij :: rest, l => swapSteps rest (listSwap l ij.1 ij.2)

def shuffle (deck : List Card) (seed : String) : List Card :=
  swapSteps (fySwaps (deck.length - 1) (hashSeed seed)) deck

/-! ### Protocol types (from `protocol.ts`) -/

inductive Phase : Type
  | Lobby
  | Bidding
  | Trick
  | Scoring
  | RoundEnd
deriving DecidableEq

inductive PlayerKind : Type
  | human
  | bot
deriving DecidableEq

structure Player where
  id : String
  kind : PlayerKind
deriving DecidableEq

structure TrickPlay where
  playerId : String
  card : Card
deriving DecidableEq

inductive Trump : Type
  | NT
  | S (s : Suit)
deriving DecidableEq

inductive MissMode : Type
  | zero
  | wins
deriving DecidableEq

structure ScoringConfig where
  exactBonus : Int
  missMode : MissMode
deriving DecidableEq

structure TrickState where
  leader : String
  plays : List TrickPlay
deriving DecidableEq

structure GameState where
  version : Int
  phase : Phase
  players : List Player
  turn : Option String
  rngSeed : String
  turnSeconds : Int
  timer : Option Int
  handSizes : List Int
  scoring : ScoringConfig
  roundIndex : Nat
  leadIndex : Nat
  scores : List (String × Int)
  bids : List (String × Int)
  trump : Trump
  deck : Option (List Card)
  hands : Option (List (String × List Card))
  trick : Option TrickState
  tableWins : Option (List (String × Int))
deriving DecidableEq

structure ScoringPartial where
  exactBonus : Option Int
  missMode : Option MissMode
deriving DecidableEq

inductive Command : Type
  | ADD_PLAYER (playerId : String) (kind : Option PlayerKind)
  | START_GAME (handSizes : List Int) (turnSeconds : Int) (scoring : Option ScoringPartial)
  | PLACE_BID (playerId : String) (bid : Int)
  | SET_TRUMP (trump : Trump)
  | PLAY_CARD (playerId : String) (card : Card)
  | TICK
  | NEXT_TURN
  | NEXT_HAND
deriving DecidableEq

/-! ### String-keyed record operations (JavaScript object semantics) -/

def lookupk {β : Type} (k : String) : List (String × β) → Option β
  | [] => none
  | (k', v) :: rest => if k' = k then some v else lookupk k rest

/-- `{...m, [k]: v}`: update in place if the key exists, append otherwise. -/
def setk {β : Type} (k : String) (v : β) : List (String × β) → List (String × β)
  | [] => [(k, v)]
  | (k', v') :: rest => if k' = k then (k, v) :: rest else (k', v') :: setk k v rest

/-- `Array.prototype.slice(start, stop)` on a JavaScript array. -/
def jsSlice {α : Type} (l : List α) (start stop : Int) : List α :=
  let len : Int := l.length
  let s := if start < 0 then max (len + start) 0 else min start len
  let e := if stop < 0 then max (len + stop) 0 else min stop len
  (l.take e.toNat).drop s.toNat

/-! ### Engine helpers (`engine.ts`) -/

def currentHandSize (s : GameState) : Int :=
  (s.handSizes.get? s.roundIndex).getD 0

def nextAfter (playerId : String) (players : List Player) : String :=
  let idx := (players.findIdx? (fun p => p.id == playerId)).getD 0
  match players.get? ((idx + 1) % players.length) with
  | some p => p.id
  | none => ""

def rotateTurn (s : GameState) : GameState :=
  match s.turn with
  | none => s
  | some t =>
    if t = "" ∨ s.players = [] then s
    else { s with turn := some (nextAfter t s.players), timer := some s.turnSeconds }

def sumBids (bids : List (String × Int)) : Int :=
  (bids.map Prod.snd).sum

def dealHands (deck : List Card) (n : Int) : List Player → Int → List (String × List Card)
  | [], _ => []
  | p :: ps, pos => (p.id, jsSlice deck pos (pos + n)) :: dealHands deck n ps (pos + n)

def deal (s : GameState) : GameState :=
  let n := currentHandSize s
  let deck := shuffle fullDeck s.rngSeed
  { s with
    deck := some deck,
    hands := some (dealHands deck n s.players 0),
    trick := none,
    tableWins := some (s.players.map (fun p => (p.id, (0 : Int)))) }

def startHand (s : GameState) : GameState :=
  let dealt := deal s
  let leader : Option String :=
    match dealt.players.get? dealt.leadIndex with
    | some p => some p.id
    | none =>
      match dealt.players.get? 0 with
      | some p => some p.id
      | none => none
  { dealt with
    phase := Phase.Bidding,
    timer := none,
    turn := leader,
    bids := [],
    trump := Trump.NT }

def handOf (s : GameState) (pid : String) : List Card :=
  match s.hands with
  | none => []
  | some h => (lookupk pid h).getD []

def legalToPlay (s : GameState) (pid : String) (card : Card) : Bool :=
  let hand := handOf s pid
  if card ∈ hand then
    match s.trick with
    | none => true
    | some t =>
      match t.plays with
      | [] => true
      | p0 :: _ =>
        let leadSuit := suitOf p0.card
        let hasLead := hand.any (fun c => decide (suitOf c = leadSuit))
        !hasLead || decide (suitOf card = leadSuit)
  else false

/-- First element minimising `f` (strictly smaller replaces), seeded with `b`. -/
def bestBy (f : TrickPlay → Nat) : TrickPlay → List TrickPlay → TrickPlay
  | b, [] => b
  | b, p :: ps => bestBy f (if f p < f b then p else b) ps

def leadWinner : List TrickPlay → String
  | [] => ""
  | p0 :: rest =>
    (bestBy (fun p => rankIndex p.card) p0
      (rest.filter (fun p => decide (suitOf p.card = suitOf p0.card)))).playerId

def pickTrickWinner (plays : List TrickPlay) (trump : Trump) : String :=
  match trump with
  | Trump.S t =>
    match plays.filter (fun p => decide (suitOf p.card = t)) with
    | b :: bs => (bestBy (fun p => rankIndex p.card) b bs).playerId
    | [] => leadWinner plays
  | Trump.NT => leadWinner plays

/-- First element maximising `f` (strictly larger replaces), seeded with `w`. -/
def worstBy (f : Card → Nat) : Card → List Card → Card
  | w, [] => w
  | w, c :: cs => worstBy f (if f w < f c then c else w) cs

/-- The lead suit of the trick in progress (`plays.length ? suitOf(plays[0].card) : null`). -/
def leadSuitOf (s : GameState) : Option Suit :=
  match s.trick with
  | none => none
  | some t =>
    match t.plays with
    | [] => none
    | p :: _ => some (suitOf p.card)

def chooseAutoCard (s : GameState) (pid : String) : Option Card :=
  let hand := handOf s pid
  if hand = [] then none
  else
    let leadSuit := leadSuitOf s
    let legal := hand.filter (fun c => legalToPlay s pid c)
    if legal = [] then none
    else
      let pool :=
        match leadSuit with
        | none => legal
        | some ls => legal.filter (fun c => decide (suitOf c = ls))
      let lst := if pool = [] then legal else pool
      match lst with
      | [] => none
      | c :: cs => some (worstBy rankIndex c cs)

def removeFirst (c : Card) : List Card → List Card
  | [] => []
  | x :: xs => if x = c then xs else x :: removeFirst c xs

def playCard (s : GameState) (pid : String) (card : Card) : GameState :=
  if s.phase ≠ Phase.Trick ∨ s.hands = none then s
  else if s.turn ≠ some pid then s
  else if ¬ legalToPlay s pid card then s
  else
    let hs := s.hands.getD []
    let hand := removeFirst card ((lookupk pid hs).getD [])
    let hands := setk pid hand hs
        let trick := s.trick.getD ⟨pid, []⟩
        let plays := trick.plays ++ [⟨pid, card⟩]
        if plays.length = s.players.length then
          let winner := pickTrickWinner plays s.trump
          let tw0 := s.tableWins.getD []
          let tableWins := setk winner ((lookupk winner tw0).getD 0 + 1) tw0
          let anyLeft := hands.any (fun kv => decide (0 < kv.2.length))
          if anyLeft then
            { s with hands := some hands, trick := none, tableWins := some tableWins,
                     turn := some winner, timer := some s.turnSeconds }
          else
            { s with hands := some hands, trick := none, tableWins := some tableWins,
                     turn := some winner, phase := Phase.Scoring, timer := none }
        else
          { s with hands := some hands, trick := some ⟨trick.leader, plays⟩,
                   turn := some (nextAfter pid s.players), timer := some s.turnSeconds }

def autoPlay (s : GameState) : GameState :=
  match s.turn with
  | none => s
  | some t =>
    if t = "" then s
    else
      match chooseAutoCard s t with
      | none => rotateTurn s
      | some c => playCard s t c

def leaderIdOf (s : GameState) : Option String :=
  (s.players.get? s.leadIndex).map Player.id

def isLastBidder (s : GameState) (pid : String) : Bool :=
  match leaderIdOf s with
  | none => false
  | some lid => nextAfter pid s.players == lid

def placeBid (s : GameState) (pid : String) (bid : Int) : GameState :=
  if s.phase ≠ Phase.Bidding then s
  else if s.turn ≠ some pid then s
  else if bid < 0 ∨ bid > currentHandSize s then s
  else if isLastBidder s pid ∧ sumBids s.bids + bid = currentHandSize s then s
  else
    let bids := setk pid bid s.bids
    let doneTurn :=
      match s.players.get? s.leadIndex with
      | some p => some p.id
      | none => s.turn
    if s.players.all (fun p => (lookupk p.id bids).isSome) then
      { s with bids := bids, phase := Phase.Trick, trick := none,
               timer := some s.turnSeconds, turn := doneTurn }
    else
      { s with bids := bids, turn := some (nextAfter pid s.players) }

def setTrump (s : GameState) (trump : Trump) : GameState :=
  if s.phase ≠ Phase.Bidding then s
  else { s with trump := trump }

def scoreHandGo (cfg : ScoringConfig) (tw bids : List (String × Int)) :
    List Player → List (String × Int) → List (String × Int)
  | [], scores => scores
  | p :: ps, scores =>
    let tricks := (lookupk p.id tw).getD 0
    let bid := (lookupk p.id bids).getD 0
    let scores' :=
      if tricks = bid then
        setk p.id ((lookupk p.id scores).getD 0 + cfg.exactBonus + bid) scores
      else if cfg.missMode = MissMode.wins then
        setk p.id ((lookupk p.id scores).getD 0 + tricks) scores
      else scores
    scoreHandGo cfg tw bids ps scores'

def scoreHand (s : GameState) : List (String × Int) :=
  scoreHandGo s.scoring (s.tableWins.getD []) s.bids s.players s.scores

/-! ### The command processor (`step`) -/

def step (s : GameState) (cmd : Command) : GameState :=
  match cmd with
  | Command.ADD_PLAYER pid kind =>
    if s.players.length ≥ 7 then s
    else if s.phase ≠ Phase.Lobby then s
    else if s.players.any (fun p => p.id == pid) then s
    else { s with players := s.players ++ [⟨pid, kind.getD PlayerKind.human⟩] }
  | Command.START_GAME hs ts sc =>
    if s.phase ≠ Phase.Lobby ∨ s.players.length < 2 then s
    else
      let scoring : ScoringConfig :=
        { exactBonus := (sc.bind ScoringPartial.exactBonus).getD 10,
          missMode := (sc.bind ScoringPartial.missMode).getD MissMode.zero }
      let seeded : GameState :=
        { s with handSizes := hs, turnSeconds := ts, roundIndex := 0, leadIndex := 0,
                 scores := s.players.map (fun p => (p.id, (0 : Int))),
                 bids := [], trump := Trump.NT, scoring := scoring }
      startHand seeded
  | Command.PLACE_BID pid bid => placeBid s pid bid
  | Command.SET_TRUMP trump => setTrump s trump
  | Command.PLAY_CARD pid card => playCard s pid card
  | Command.TICK =>
    if s.phase ≠ Phase.Trick then s
    else
      let t := (s.timer.getD 0) - 1
      if t > 0 then { s with timer := some t }
      else autoPlay s
  | Command.NEXT_TURN => rotateTurn s
  | Command.NEXT_HAND =>
    if s.phase ≠ Phase.Scoring then s
    else
      let scores := scoreHand s
      let nextRound := s.roundIndex + 1
      if nextRound ≥ s.handSizes.length then
        { s with scores := scores, phase := Phase.RoundEnd, timer := none,
                 hands := none, trick := none, tableWins := none, bids := [] }
      else
        let leadIndex := (s.leadIndex + 1) % s.players.length
        startHand
          { s with scores := scores, roundIndex := nextRound, leadIndex := leadIndex,
                   bids := [], trump := Trump.NT }

/-! ### Reducer (`reducer.ts`)

`initialState` in the source omits the `scoring`, `bids` and `trump` fields
required by the state type; they are unreadable before `START_GAME`
initialises them (every command that consults them is phase-gated out of
Lobby), so the model fills them with the engine defaults. -/

def initialState (seed : String) : GameState :=
  { version := 1, phase := Phase.Lobby, players := [], turn := none,
    rngSeed := seed, turnSeconds := 0, timer := none, handSizes := [],
    scoring := { exactBonus := 10, missMode := MissMode.zero },
    roundIndex := 0, leadIndex := 0, scores := [], bids := [],
    trump := Trump.NT, deck := none, hands := none, trick := none,
    tableWins := none }

structure ApplyResult where
  state : GameState
deriving DecidableEq

def applyCommand (s : GameState) (cmd : Command) : ApplyResult :=
  { state := step s cmd }

def replay (seed : String) (cmds : List Command) : GameState :=
  cmds.foldl step (initialState seed)

def Reachable (s : GameState) : Prop :=
  ∃ seed cmds, replay seed cmds = s

/-- The transition relation induced by the command processor. -/
def StepRel (s : GameState) (c : Command) (s' : GameState) : Prop :=
  step s c = s'

/-- The relation between a replay's inputs and its final state. -/
def ReplayRel (seed : String) (cmds : List Command) (s : GameState) : Prop :=
  replay seed cmds = s

/-! ### Specification-side predicates

These definitions follow the wording of the specification; the theorems below
relate them to the engine definitions above. -/

/-- The per-hand score increment demanded by the scoring law. -/
def scoreIncr (s : GameState) (pid : String) : Int :=
  let tricks := (lookupk pid (s.tableWins.getD [])).getD 0
  let bid := (lookupk pid s.bids).getD 0
  if tricks = bid then s.scoring.exactBonus + bid
  else if s.scoring.missMode = MissMode.wins then tricks
  else 0

/-- The guard conditions under which the command processor rejects a command
(phase violation, turn violation, rule violation, capacity violation). -/
def rejectsCmd (s : GameState) (c : Command) : Prop :=
  match c with
  | Command.ADD_PLAYER pid _ =>
    s.players.length ≥ 7 ∨ s.phase ≠ Phase.Lobby ∨
      s.players.any (fun p => p.id == pid) = true
  | Command.START_GAME _ _ _ => s.phase ≠ Phase.Lobby ∨ s.players.length < 2
  | Command.PLACE_BID pid bid =>
    s.phase ≠ Phase.Bidding ∨ s.turn ≠ some pid ∨ bid < 0 ∨
      bid > currentHandSize s ∨
      (isLastBidder s pid = true ∧ sumBids s.bids + bid = currentHandSize s)
  | Command.SET_TRUMP _ => s.phase ≠ Phase.Bidding
  | Command.PLAY_CARD pid card =>
    s.phase ≠ Phase.Trick ∨ s.hands = none ∨ s.turn ≠ some pid ∨
      legalToPlay s pid card = false
  | Command.TICK => s.phase ≠ Phase.Trick
  | Command.NEXT_TURN => s.turn = none ∨ s.turn = some "" ∨ s.players = []
  | Command.NEXT_HAND => s.phase ≠ Phase.Scoring

/-- Spec wording for the auto-played card: the lowest-ranked legal card of
the lead suit if any legal lead-suit card exists, else the lowest-ranked
legal card overall (larger rank index = lower rank). -/
def autoCardSpec (s : GameState) (pid : String) (c : Card) : Prop :=
  legalToPlay s pid c = true ∧
  ((∃ d ∈ handOf s pid, legalToPlay s pid d = true ∧ some (suitOf d) = leadSuitOf s) →
     some (suitOf c) = leadSuitOf s ∧
       ∀ d ∈ handOf s pid, legalToPlay s pid d = true →
         some (suitOf d) = leadSuitOf s → rankIndex d ≤ rankIndex c) ∧
  ((¬ ∃ d ∈ handOf s pid, legalToPlay s pid d = true ∧ some (suitOf d) = leadSuitOf s) →
     ∀ d ∈ handOf s pid, legalToPlay s pid d = true → rankIndex d ≤ rankIndex c)

/-- Spec wording for the trick winner: a trump-suit player holding the
highest-ranked trump card when trump was played (and trump is not NT),
otherwise the player of the highest-ranked card of the lead suit (lower rank
index = higher rank). -/
def winnerSpec (plays : List TrickPlay) (trump : Trump) (w : String) : Prop :=
  (∀ t, trump = Trump.S t → (∃ p ∈ plays, suitOf p.card = t) →
     ∃ p ∈ plays, p.playerId = w ∧ suitOf p.card = t ∧
       ∀ q ∈ plays, suitOf q.card = t → rankIndex p.card ≤ rankIndex q.card) ∧
  ((trump = Trump.NT ∨ ∀ t, trump = Trump.S t → ∀ p ∈ plays, suitOf p.card ≠ t) →
     ∀ p0 rest, plays = p0 :: rest →
       ∃ p ∈ plays, p.playerId = w ∧ suitOf p.card = suitOf p0.card ∧
         ∀ q ∈ plays, suitOf q.card = suitOf p0.card →
           rankIndex p.card ≤ rankIndex q.card)

/-- State invariant maintained by every reachable state; it feeds the
zero-hand deadlock argument. -/
def Inv (s : GameState) : Prop :=
  (s.players.map Player.id).Nodup ∧
  (s.bids.map Prod.fst).Nodup ∧
  (s.phase ≠ Phase.Lobby → 2 ≤ s.players.length ∧ s.leadIndex < s.players.length) ∧
  (s.phase = Phase.Bidding →
    (∀ kv ∈ s.bids, 0 ≤ kv.2 ∧ kv.2 ≤ currentHandSize s) ∧
    (currentHandSize s = 0 →
      ∀ pid, isLastBidder s pid = true → lookupk pid s.bids = none))

/-! ### Concrete states and command sequences used by witnesses and
counterexamples -/

/-- A small Bidding-phase state: leader "A", acting player "B" (the last
bidder), hand size 2, no bids placed yet. -/
def bState : GameState :=
  { version := 1, phase := Phase.Bidding,
    players := [⟨"A", PlayerKind.human⟩, ⟨"B", PlayerKind.human⟩],
    turn := some "B", rngSeed := "s", turnSeconds := 5, timer := none,
    handSizes := [2], scoring := ⟨10, MissMode.zero⟩, roundIndex := 0,
    leadIndex := 0, scores := [("A", 0), ("B", 0)], bids := [],
    trump := Trump.NT, deck := none, hands := none, trick := none,
    tableWins := none }

/-- A Bidding-phase state with the leader "A" to act (not the last bidder). -/
def b2State : GameState :=
  { bState with turn := some "A" }

/-- A Trick-phase state where "A" must act with one card and one second on
the clock; "B" has already led the ace of spades. -/
def tkState : GameState :=
  { version := 1, phase := Phase.Trick,
    players := [⟨"A", PlayerKind.human⟩, ⟨"B", PlayerKind.human⟩],
    turn := some "A", rngSeed := "s", turnSeconds := 5, timer := some 1,
    handSizes := [1], scoring := ⟨10, MissMode.zero⟩, roundIndex := 0,
    leadIndex := 0, scores := [("A", 0), ("B", 0)],
    bids := [("A", 0), ("B", 1)], trump := Trump.NT, deck := none,
    hands := some [("A", [⟨5, Suit.spades⟩]), ("B", [])],
    trick := some ⟨"B", [⟨"B", ⟨0, Suit.spades⟩⟩]⟩,
    tableWins := some [("A", 0), ("B", 0)] }

/-- A Scoring-phase state: "A" made the exact bid, "B" missed. -/
def scState : GameState :=
  { version := 1, phase := Phase.Scoring,
    players := [⟨"A", PlayerKind.human⟩, ⟨"B", PlayerKind.human⟩],
    turn := some "A", rngSeed := "s", turnSeconds := 5, timer := none,
    handSizes := [2, 1], scoring := ⟨10, MissMode.zero⟩, roundIndex := 0,
    leadIndex := 0, scores := [("A", 3), ("B", 4)],
    bids := [("A", 2), ("B", 1)], trump := Trump.NT, deck := none,
    hands := some [("A", []), ("B", [])], trick := none,
    tableWins := some [("A", 2), ("B", 0)] }

/-- Commands reaching a Trick-phase state whose placed bids total exactly the
hand size: "B" (the last bidder) legally bids 1 after a NEXT_TURN rotation,
then "A" places the completing bid of 1 with hand size 2. -/
def c1Cmds : List Command :=
  [Command.ADD_PLAYER "A" none, Command.ADD_PLAYER "B" none,
   Command.START_GAME [2] 5 none, Command.NEXT_TURN,
   Command.PLACE_BID "B" 1, Command.PLACE_BID "A" 1]

/-- Commands reaching a state whose hand size times player count is 54. -/
def c8Cmds : List Command :=
  [Command.ADD_PLAYER "A" none, Command.ADD_PLAYER "B" none,
   Command.START_GAME [27] 5 none]

/-- Commands reaching a Bidding state whose hand size is 0. -/
def c9Cmds : List Command :=
  [Command.ADD_PLAYER "A" none, Command.ADD_PLAYER "B" none,
   Command.START_GAME [0] 5 none]

/-! ### Association-list lemmas -/

theorem lookupk_setk_self {β : Type} (k : String) (v : β) (m : List (String × β)) :
    lookupk k (setk k v m) = some v := by
  induction m with
  | nil => simp [setk, lookupk]
  | cons kv rest ih =>
    obtain ⟨k', v'⟩ := kv
    by_cases h : k' = k
    · simp [setk, lookupk, h]
    · simp [setk, lookupk, h, ih]

theorem lookupk_setk_ne {β : Type} (k k' : String) (v : β) (m : List (String × β))
    (h : k' ≠ k) : lookupk k (setk k' v m) = lookupk k m := by
  induction m with
  | nil => simp [setk, lookupk, h]
  | cons kv rest ih =>
    obtain ⟨k0, v0⟩ := kv
    by_cases h0 : k0 = k'
    · subst h0
      simp [setk, lookupk, h]
    · simp [setk, lookupk, h0, ih]

theorem mem_setk {β : Type} (k : String) (v : β) (m : List (String × β)) (kv : String × β)
    (h : kv ∈ setk k v m) : kv = (k, v) ∨ kv ∈ m := by
  induction m with
  | nil =>
    simp only [setk, List.mem_singleton] at h
    exact Or.inl h
  | cons kv0 rest ih =>
    obtain ⟨k0, v0⟩ := kv0
    simp only [setk] at h
    by_cases h0 : k0 = k
    · rw [if_pos h0] at h
      rcases List.mem_cons.mp h with h1 | h1
      · exact Or.inl h1
      · exact Or.inr (List.mem_cons_of_mem _ h1)
    · rw [if_neg h0] at h
      rcases List.mem_cons.mp h with h1 | h1
      · exact Or.inr (List.mem_cons.mpr (Or.inl h1))
      · rcases ih h1 with h2 | h2
        · exact Or.inl h2
        · exact Or.inr (List.mem_cons_of_mem _ h2)

theorem fst_mem_setk {β : Type} (k a : String) (v : β) (m : List (String × β))
    (h : a ∈ (setk k v m).map Prod.fst) : a = k ∨ a ∈ m.map Prod.fst := by
  rcases List.mem_map.mp h with ⟨kv, hkv, rfl⟩
  rcases mem_setk k v m kv hkv with h | h
  · subst h; exact Or.inl rfl
  · exact Or.inr (List.mem_map_of_mem _ h)

theorem nodup_fst_setk {β : Type} (k : String) (v : β) (m : List (String × β))
    (h : (m.map Prod.fst).Nodup) : ((setk k v m).map Prod.fst).Nodup := by
  induction m with
  | nil => simp [setk]
  | cons kv rest ih =>
    obtain ⟨k0, v0⟩ := kv
    simp only [List.map_cons, List.nodup_cons] at h
    by_cases h0 : k0 = k
    · subst h0
      simpa [setk, List.nodup_cons] using h
    · simp only [setk, if_neg h0, List.map_cons, List.nodup_cons]
      refine ⟨fun hmem => ?_, ih h.2⟩
      rcases fst_mem_setk k k0 v rest hmem with h1 | h1
      · exact h0 h1
      · exact h.1 h1

theorem lookupk_eq_none_iff {β : Type} (k : String) (m : List (String × β)) :
    lookupk k m = none ↔ k ∉ m.map Prod.fst := by
  induction m with
  | nil => simp [lookupk]
  | cons kv rest ih =>
    obtain ⟨k0, v0⟩ := kv
    by_cases h0 : k0 = k
    · simp [lookupk, h0]
    · simp [lookupk, h0, ih, Ne.symm h0]

theorem sumBids_eq_zero (l : List (String × Int)) (h : ∀ kv ∈ l, kv.2 = 0) :
    sumBids l = 0 := by
  induction l with
  | nil => simp [sumBids]
  | cons kv rest ih =>
    have h0 := h kv (List.mem_cons_self kv rest)
    have hrest : sumBids rest = 0 :=
      ih (fun kv' hkv' => h kv' (List.mem_cons_of_mem _ hkv'))
    simp only [sumBids, List.map_cons, List.sum_cons] at *
    omega

/-! ### The Fisher-Yates swap preserves the multiset of entries -/

theorem consSwap_perm {α : Type} (t : List α) (k : Nat) (x y : α)
    (h : t.get? k = some y) : (y :: t.set k x).Perm (x :: t) := by
  induction t generalizing k with
  | nil => simp [List.get?] at h
  | cons b t' ih =>
    cases k with
    | zero =>
      simp only [List.get?] at h
      injection h with h
      subst h
      simpa using List.Perm.swap x b t'
    | succ k' =>
      simp only [List.get?] at h
      have h1 : (y :: b :: t'.set k' x).Perm (b :: y :: t'.set k' x) :=
        List.Perm.swap b y _
      have h2 : (b :: y :: t'.set k' x).Perm (b :: x :: t') := (ih k' h).cons b
      have h3 : (b :: x :: t').Perm (x :: b :: t') := List.Perm.swap x b t'
      simpa using (h1.trans h2).trans h3

theorem set_set_perm {α : Type} :
    ∀ (l : List α) (i j : Nat) (x y : α), l.get? i = some x → l.get? j = some y →
      ((l.set i y).set j x).Perm l := by
  intro l
  induction l with
  | nil => intro i j x y hx; simp [List.get?] at hx
  | cons a t ih =>
    intro i j x y hx hy
    cases i with
    | zero =>
      simp only [List.get?] at hx
      injection hx with hx
      subst hx
      cases j with
      | zero =>
        simp only [List.get?] at hy
        injection hy with hy
        subst hy
        simp
      | succ j' =>
        simp only [List.get?] at hy
        simpa using consSwap_perm t j' a y hy
    | succ i' =>
      simp only [List.get?] at hx
      cases j with
      | zero =>
        simp only [List.get?] at hy
        injection hy with hy
        subst hy
        simpa using consSwap_perm t i' a x hx
      | succ j' =>
        simp only [List.get?] at hy
        simpa using (ih i' j' x y hx hy).cons a

theorem listSwap_perm {α : Type} (l : List α) (i j : Nat) : (listSwap l i j).Perm l := by
  unfold listSwap
  cases hx : l.get? i with
  | none => exact List.Perm.refl l
  | some x =>
    cases hy : l.get? j with
    | none => exact List.Perm.refl l
    | some y => exact set_set_perm l i j x y hx hy

theorem swapSteps_perm {α : Type} (steps : List (Nat × Nat)) :
    ∀ l : List α, (swapSteps steps l).Perm l := by
  induction steps with
  | nil =>
    intro l
    exact List.Perm.refl l
  | cons ij rest ih =>
    intro l
    simp only [swapSteps]
    exact (ih _).trans (listSwap_perm l ij.1 ij.2)

theorem shuffle_perm (deck : List Card) (seed : String) : (shuffle deck seed).Perm deck :=
  swapSteps_perm (fySwaps (deck.length - 1) (hashSeed seed)) deck

/-- C2: the engine's transition relation is deterministic: a state and a
command admit exactly one successor state, hence a seed and a command
sequence admit exactly one replay outcome (any two replays of the same
sequence from `initialState seed` coincide); and the shuffle is a permutation
of its input deck, a function of (deck, seed) alone. -/
theorem C2_determinism_and_shuffle_perm (seed : String) (cmds : List Command)
    (deck : List Card) :
    (∀ s c s1 s2, StepRel s c s1 → StepRel s c s2 → s1 = s2) ∧
    (∃! s, ReplayRel seed cmds s) ∧
    (shuffle deck seed).Perm deck := by
  refine ⟨?_, ?_, shuffle_perm deck seed⟩
  · intro s c s1 s2 h1 h2
    rw [← h1, ← h2]
  · refine ⟨replay seed cmds, rfl, ?_⟩
    intro s hs
    exact hs.symm

theorem C2_determinism_and_shuffle_perm_witness :
    StepRel (initialState "w2") Command.TICK (initialState "w2") ∧
    initialState "w2" = initialState "w2" :=
  ⟨(by decide : step (initialState "w2") Command.TICK = initialState "w2"),
   (C2_determinism_and_shuffle_perm "w2" [] []).1 (initialState "w2") Command.TICK
     (initialState "w2") (initialState "w2")
     (by decide : step (initialState "w2") Command.TICK = initialState "w2")
     (by decide : step (initialState "w2") Command.TICK = initialState "w2")⟩

/-! ### Guard-rejection helper lemmas -/

theorem addPlayer_noop (s : GameState) (pid : String) (kind : Option PlayerKind)
    (h : s.players.length ≥ 7 ∨ s.phase ≠ Phase.Lobby ∨
      s.players.any (fun p => p.id == pid) = true) :
    step s (Command.ADD_PLAYER pid kind) = s := by
  show (if s.players.length ≥ 7 then s
    else if s.phase ≠ Phase.Lobby then s
    else if s.players.any (fun p => p.id == pid) then s
    else _) = s
  by_cases h1 : s.players.length ≥ 7
  · rw [if_pos h1]
  · rw [if_neg h1]
    by_cases h2 : s.phase ≠ Phase.Lobby
    · rw [if_pos h2]
    · rw [if_neg h2]
      have h3 : s.players.any (fun p => p.id == pid) = true := by tauto
      rw [if_pos h3]

theorem startGame_noop (s : GameState) (hs : List Int) (ts : Int)
    (sc : Option ScoringPartial) (h : s.phase ≠ Phase.Lobby ∨ s.players.length < 2) :
    step s (Command.START_GAME hs ts sc) = s := by
  show (if s.phase ≠ Phase.Lobby ∨ s.players.length < 2 then s else _) = s
  rw [if_pos h]

theorem placeBid_noop (s : GameState) (pid : String) (bid : Int)
    (h : s.phase ≠ Phase.Bidding ∨ s.turn ≠ some pid ∨ bid < 0 ∨
      bid > currentHandSize s ∨
      (isLastBidder s pid = true ∧ sumBids s.bids + bid = currentHandSize s)) :
    placeBid s pid bid = s := by
  unfold placeBid
  by_cases h1 : s.phase ≠ Phase.Bidding
  · rw [if_pos h1]
  · rw [if_neg h1]
    by_cases h2 : s.turn ≠ some pid
    · rw [if_pos h2]
    · rw [if_neg h2]
      by_cases h3 : bid < 0 ∨ bid > currentHandSize s
      · rw [if_pos h3]
      · rw [if_neg h3]
        have h4 : isLastBidder s pid = true ∧
            sumBids s.bids + bid = currentHandSize s := by tauto
        rw [if_pos h4]

theorem setTrump_noop (s : GameState) (tr : Trump) (h : s.phase ≠ Phase.Bidding) :
    setTrump s tr = s := by
  unfold setTrump
  rw [if_pos h]

theorem playCard_noop (s : GameState) (pid : String) (card : Card)
    (h : s.phase ≠ Phase.Trick ∨ s.hands = none ∨ s.turn ≠ some pid ∨
      legalToPlay s pid card = false) :
    playCard s pid card = s := by
  unfold playCard
  by_cases h1 : s.phase ≠ Phase.Trick ∨ s.hands = none
  · rw [if_pos h1]
  · rw [if_neg h1]
    by_cases h2 : s.turn ≠ some pid
    · rw [if_pos h2]
    · rw [if_neg h2]
      have h4 : legalToPlay s pid card = false := by tauto
      rw [if_pos (by simp [h4])]

theorem tick_noop (s : GameState) (h : s.phase ≠ Phase.Trick) :
    step s Command.TICK = s := by
  show (if s.phase ≠ Phase.Trick then s else _) = s
  rw [if_pos h]

theorem nextHand_noop (s : GameState) (h : s.phase ≠ Phase.Scoring) :
    step s Command.NEXT_HAND = s := by
  show (if s.phase ≠ Phase.Scoring then s else _) = s
  rw [if_pos h]

theorem rotateTurn_noop (s : GameState)
    (h : s.turn = none ∨ s.turn = some "" ∨ s.players = []) :
    rotateTurn s = s := by
  unfold rotateTurn
  cases ht : s.turn with
  | none => rfl
  | some t =>
    show (if t = "" ∨ s.players = [] then s else _) = s
    rcases h with h | h | h
    · rw [ht] at h
      exact Option.noConfusion h
    · rw [ht] at h
      injection h with h
      rw [if_pos (Or.inl h)]
    · rw [if_pos (Or.inr h)]

/-- C1 (amended): the local forbidden-sum rule holds: whenever the acting
player is the designated last bidder and the proposed bid would make the sum
of all bids equal the current hand size, the PLACE_BID command leaves the
state unchanged. -/
theorem C1_last_bidder_forbidden_sum_reject (s : GameState) (pid : String) (bid : Int)
    (hlast : isLastBidder s pid = true)
    (hsum : sumBids s.bids + bid = currentHandSize s) :
    step s (Command.PLACE_BID pid bid) = s :=
  placeBid_noop s pid bid (Or.inr (Or.inr (Or.inr (Or.inr ⟨hlast, hsum⟩))))

theorem C1_last_bidder_forbidden_sum_reject_witness :
    isLastBidder bState "B" = true ∧ sumBids bState.bids + 2 = currentHandSize bState ∧
    step bState (Command.PLACE_BID "B" 2) = bState :=
  ⟨by decide, by decide,
   C1_last_bidder_forbidden_sum_reject bState "B" 2 (by decide) (by decide)⟩

/-- C1 counterexample: the global consequence fails.  Because NEXT_TURN also
rotates the turn during Bidding, the command sequence `c1Cmds` lets the
non-last bidder "A" place the completing bid, reaching a Trick-phase state in
which the placed bids total exactly the hand size. -/
theorem C1_cex_bids_total_hand_size :
    Reachable (replay "seed" c1Cmds) ∧
    (replay "seed" c1Cmds).phase = Phase.Trick ∧
    sumBids (replay "seed" c1Cmds).bids = currentHandSize (replay "seed" c1Cmds) :=
  ⟨⟨"seed", c1Cmds, rfl⟩, by decide, by decide⟩

/-- C5 (amended): wrong-phase and wrong-turn commands are no-ops for every
command except NEXT_TURN; NEXT_TURN rotates the turn in any phase and is a
no-op exactly when the stored turn is null or empty or there are no
players. -/
theorem C5_wrong_phase_and_turn_noop (s : GameState) :
    (∀ pid kind, s.phase ≠ Phase.Lobby → step s (Command.ADD_PLAYER pid kind) = s) ∧
    (∀ hs ts sc, s.phase ≠ Phase.Lobby → step s (Command.START_GAME hs ts sc) = s) ∧
    (∀ pid bid, s.phase ≠ Phase.Bidding ∨ s.turn ≠ some pid →
      step s (Command.PLACE_BID pid bid) = s) ∧
    (∀ tr, s.phase ≠ Phase.Bidding → step s (Command.SET_TRUMP tr) = s) ∧
    (∀ pid card, s.phase ≠ Phase.Trick ∨ s.turn ≠ some pid →
      step s (Command.PLAY_CARD pid card) = s) ∧
    (s.phase ≠ Phase.Trick → step s Command.TICK = s) ∧
    (s.phase ≠ Phase.Scoring → step s Command.NEXT_HAND = s) ∧
    (s.turn = none ∨ s.turn = some "" ∨ s.players = [] → step s Command.NEXT_TURN = s) := by
  refine ⟨?_, ?_, ?_, ?_, ?_, ?_, ?_, ?_⟩
  · intro pid kind h
    exact addPlayer_noop s pid kind (Or.inr (Or.inl h))
  · intro hs ts sc h
    exact startGame_noop s hs ts sc (Or.inl h)
  · intro pid bid h
    rcases h with h | h
    · exact placeBid_noop s pid bid (Or.inl h)
    · exact placeBid_noop s pid bid (Or.inr (Or.inl h))
  · intro tr h
    exact setTrump_noop s tr h
  · intro pid card h
    rcases h with h | h
    · exact playCard_noop s pid card (Or.inl h)
    · exact playCard_noop s pid card (Or.inr (Or.inr (Or.inl h)))
  · exact tick_noop s
  · exact nextHand_noop s
  · exact rotateTurn_noop s

theorem C5_wrong_phase_and_turn_noop_witness :
    step (initialState "w") Command.TICK = initialState "w" ∧
    step (initialState "w") Command.NEXT_TURN = initialState "w" :=
  ⟨(C5_wrong_phase_and_turn_noop (initialState "w")).2.2.2.2.2.1 (by decide),
   (C5_wrong_phase_and_turn_noop (initialState "w")).2.2.2.2.2.2.2 (Or.inl rfl)⟩

/-- C5 counterexample: NEXT_TURN issued in the Bidding phase (a phase where
the transition table does not allow it) is not a no-op: it rotates the turn
from "B" to "A" and starts a countdown. -/
theorem C5_cex_next_turn_in_bidding : step bState Command.NEXT_TURN ≠ bState := by
  decide

/-- C6 (amended): every rejected command is a silent unchanged-state return:
`applyCommand` yields exactly the prior state wrapped in a result carrying no
rejection reason, and never a fault. -/
theorem C6_rejection_silent_state_intact (s : GameState) (c : Command)
    (h : rejectsCmd s c) : applyCommand s c = ApplyResult.mk s := by
  have hstep : step s c = s := by
    cases c with
    | ADD_PLAYER pid kind => exact addPlayer_noop s pid kind h
    | START_GAME hs ts sc => exact startGame_noop s hs ts sc h
    | PLACE_BID pid bid => exact placeBid_noop s pid bid h
    | SET_TRUMP tr => exact setTrump_noop s tr h
    | PLAY_CARD pid card => exact playCard_noop s pid card h
    | TICK => exact tick_noop s h
    | NEXT_TURN => exact rotateTurn_noop s h
    | NEXT_HAND => exact nextHand_noop s h
  unfold applyCommand
  rw [hstep]

theorem C6_rejection_silent_state_intact_witness :
    applyCommand bState Command.TICK = ApplyResult.mk bState :=
  C6_rejection_silent_state_intact bState Command.TICK
    (by decide : bState.phase ≠ Phase.Trick)

/-- C6 counterexample: a rejected command (an out-of-range bid) produces a
result identical to that of an accepted command (SET_TRUMP re-selecting the
current trump): the result is the bare unchanged state, carries no rejection
reason, and cannot be distinguished from success. -/
theorem C6_cex_rejection_indistinguishable :
    applyCommand bState (Command.PLACE_BID "B" 99)
      = applyCommand bState (Command.SET_TRUMP Trump.NT) ∧
    applyCommand bState (Command.PLACE_BID "B" 99) = ApplyResult.mk bState := by
  constructor
  · decide
  · decide

/-! ### Seed preservation (C10) -/

theorem rotateTurn_rngSeed (s : GameState) : (rotateTurn s).rngSeed = s.rngSeed := by
  unfold rotateTurn
  split
  · rfl
  · split
    · rfl
    · rfl

theorem playCard_rngSeed (s : GameState) (pid : String) (card : Card) :
    (playCard s pid card).rngSeed = s.rngSeed := by
  unfold playCard
  repeat' split
  all_goals try rfl
  all_goals try dsimp only
  all_goals repeat' split
  all_goals rfl

theorem autoPlay_rngSeed (s : GameState) : (autoPlay s).rngSeed = s.rngSeed := by
  unfold autoPlay
  split
  · rfl
  · split
    · rfl
    · split
      · exact rotateTurn_rngSeed s
      · exact playCard_rngSeed s _ _

theorem placeBid_rngSeed (s : GameState) (pid : String) (bid : Int) :
    (placeBid s pid bid).rngSeed = s.rngSeed := by
  unfold placeBid
  repeat' split
  all_goals try rfl
  all_goals try dsimp only
  all_goals repeat' split
  all_goals rfl

theorem step_rngSeed (s : GameState) (c : Command) : (step s c).rngSeed = s.rngSeed := by
  cases c with
  | ADD_PLAYER pid kind =>
    show (if _ then s else _).rngSeed = s.rngSeed
    repeat' split
    all_goals rfl
  | START_GAME hs ts sc =>
    show (if _ then s else _).rngSeed = s.rngSeed
    split
    · rfl
    · rfl
  | PLACE_BID pid bid => exact placeBid_rngSeed s pid bid
  | SET_TRUMP tr =>
    show (setTrump s tr).rngSeed = s.rngSeed
    unfold setTrump
    split
    · rfl
    · rfl
  | PLAY_CARD pid card => exact playCard_rngSeed s pid card
  | TICK =>
    show (if _ then s else _).rngSeed = s.rngSeed
    split
    · rfl
    · split
      · rfl
      · exact autoPlay_rngSeed s
  | NEXT_TURN => exact rotateTurn_rngSeed s
  | NEXT_HAND =>
    show (if _ then s else _).rngSeed = s.rngSeed
    repeat' split
    all_goals rfl

/-- C10: the rng seed is never advanced by any command, and `deal` is a
function of the seed, player sequence and hand size alone: two deals in
states agreeing on those three yield identical hands, so every hand of a
match is dealt from the identical shuffled deck permutation. -/
theorem C10_seed_never_advances_and_deal_repeats :
    (∀ s c, (step s c).rngSeed = s.rngSeed) ∧
    (∀ s1 s2 : GameState, s1.rngSeed = s2.rngSeed → s1.players = s2.players →
      currentHandSize s1 = currentHandSize s2 → (deal s1).hands = (deal s2).hands) := by
  constructor
  · exact step_rngSeed
  · intro s1 s2 hseed hplayers hsize
    unfold deal
    rw [hseed, hplayers, hsize]

theorem C10_seed_never_advances_and_deal_repeats_witness :
    (step bState Command.NEXT_TURN).rngSeed = bState.rngSeed ∧
    (deal bState).hands = (deal b2State).hands :=
  ⟨C10_seed_never_advances_and_deal_repeats.1 bState Command.NEXT_TURN,
   C10_seed_never_advances_and_deal_repeats.2 bState b2State rfl rfl rfl⟩

/-! ### Scoring (C4) -/

theorem scoreHandGo_lookup_notmem (cfg : ScoringConfig) (tw bids : List (String × Int))
    (k : String) : ∀ (ps : List Player) (acc : List (String × Int)),
    k ∉ ps.map Player.id →
    lookupk k (scoreHandGo cfg tw bids ps acc) = lookupk k acc := by
  intro ps
  induction ps with
  | nil =>
    intro acc _
    rfl
  | cons q qs ih =>
    intro acc h
    simp only [List.map_cons, List.mem_cons, not_or] at h
    obtain ⟨hq, hqs⟩ := h
    simp only [scoreHandGo]
    rw [ih _ hqs]
    split
    · exact lookupk_setk_ne _ _ _ _ (fun hh => hq hh.symm)
    · split
      · exact lookupk_setk_ne _ _ _ _ (fun hh => hq hh.symm)
      · rfl

theorem scoreHandGo_lookup_mem (cfg : ScoringConfig) (tw bids : List (String × Int)) :
    ∀ (ps : List Player) (acc : List (String × Int)) (p : Player),
    (ps.map Player.id).Nodup → p ∈ ps →
    (lookupk p.id (scoreHandGo cfg tw bids ps acc)).getD 0
      = (lookupk p.id acc).getD 0 +
        (if (lookupk p.id tw).getD 0 = (lookupk p.id bids).getD 0
         then cfg.exactBonus + (lookupk p.id bids).getD 0
         else if cfg.missMode = MissMode.wins then (lookupk p.id tw).getD 0 else 0) := by
  intro ps
  induction ps with
  | nil =>
    intro acc p _ hp
    cases hp
  | cons q qs ih =>
    intro acc p hnd hp
    simp only [List.map_cons, List.nodup_cons] at hnd
    rcases List.mem_cons.mp hp with rfl | hp'
    · simp only [scoreHandGo]
      rw [scoreHandGo_lookup_notmem cfg tw bids p.id qs _ hnd.1]
      by_cases hc : (lookupk p.id tw).getD 0 = (lookupk p.id bids).getD 0
      · rw [if_pos hc, if_pos hc, lookupk_setk_self]
        simp only [Option.getD_some]
        omega
      · rw [if_neg hc, if_neg hc]
        by_cases hw : cfg.missMode = MissMode.wins
        · rw [if_pos hw, if_pos hw, lookupk_setk_self]
          simp only [Option.getD_some]
        · rw [if_neg hw, if_neg hw]
          omega
    · have hne : q.id ≠ p.id := by
        intro he
        exact hnd.1 (he ▸ List.mem_map_of_mem Player.id hp')
      simp only [scoreHandGo]
      rw [ih _ p hnd.2 hp']
      split
      · rw [lookupk_setk_ne _ _ _ _ hne]
      · split
        · rw [lookupk_setk_ne _ _ _ _ hne]
        · rfl

/-- C4: applying NEXT_HAND in Scoring installs `scoreHand`, and `scoreHand`
increases each player's cumulative score by exactBonus + bid on an exact bid,
else by 0 (missMode "zero") or by tableWins (missMode "wins"); prior scores
are carried over, not reset. -/
theorem C4_scoring_law (s : GameState) (hph : s.phase = Phase.Scoring)
    (hnd : (s.players.map Player.id).Nodup) :
    (step s Command.NEXT_HAND).scores = scoreHand s ∧
    ∀ p ∈ s.players,
      (lookupk p.id (scoreHand s)).getD 0
        = (lookupk p.id s.scores).getD 0 + scoreIncr s p.id := by
  constructor
  · show (if s.phase ≠ Phase.Scoring then s else _).scores = scoreHand s
    rw [if_neg (by simp [hph])]
    dsimp only
    split
    · rfl
    · rfl
  · intro p hp
    exact scoreHandGo_lookup_mem s.scoring (s.tableWins.getD []) s.bids
      s.players s.scores p hnd hp

theorem C4_scoring_law_witness :
    (step scState Command.NEXT_HAND).scores = scoreHand scState ∧
    (lookupk "A" (scoreHand scState)).getD 0
      = (lookupk "A" scState.scores).getD 0 + scoreIncr scState "A" :=
  ⟨(C4_scoring_law scState rfl (by decide)).1,
   (C4_scoring_law scState rfl (by decide)).2 ⟨"A", PlayerKind.human⟩ (by decide)⟩

/-! ### Deck capacity (C8) -/

theorem jsSlice_length {α : Type} (l : List α) (start n : Int)
    (h0 : 0 ≤ start) (h1 : 0 ≤ n) (h2 : start + n ≤ l.length) :
    (jsSlice l start (start + n)).length = n.toNat := by
  unfold jsSlice
  dsimp only
  rw [if_neg (by omega), if_neg (by omega)]
  simp only [List.length_drop, List.length_take]
  omega

theorem dealHands_lookup (deck : List Card) (n : Int) (hn : 0 ≤ n) :
    ∀ (players : List Player) (pos : Int) (p : Player),
    (players.map Player.id).Nodup → p ∈ players →
    ∃ start : Int, pos ≤ start ∧ start + n ≤ pos + players.length * n ∧
      lookupk p.id (dealHands deck n players pos) = some (jsSlice deck start (start + n)) := by
  intro players
  induction players with
  | nil =>
    intro pos p _ hp
    cases hp
  | cons q qs ih =>
    intro pos p hnd hp
    simp only [List.map_cons, List.nodup_cons] at hnd
    have hcast : ((q :: qs).length : Int) * n = (qs.length : Int) * n + n := by
      push_cast [List.length_cons]
      ring
    rcases List.mem_cons.mp hp with rfl | hp'
    · refine ⟨pos, le_refl pos, ?_, ?_⟩
      · have hA : 0 ≤ (qs.length : Int) * n := mul_nonneg (Int.natCast_nonneg _) hn
        rw [hcast]
        linarith
      · simp [dealHands, lookupk]
    · have hne : q.id ≠ p.id := by
        intro he
        exact hnd.1 (he ▸ List.mem_map_of_mem Player.id hp')
      obtain ⟨start, hs1, hs2, hs3⟩ := ih (pos + n) p hnd.2 hp'
      refine ⟨start, by linarith, ?_, ?_⟩
      · rw [hcast]
        linarith
      · simp only [dealHands, lookupk, if_neg hne]
        exact hs3

/-- C8 (amended): the capacity bound is not enforced by the engine, but when
it holds (hand size times player count at most 52) every player is dealt a
full hand of the configured size. -/
theorem C8_capacity_gives_full_hands (s : GameState)
    (hnd : (s.players.map Player.id).Nodup)
    (hn : 0 ≤ currentHandSize s)
    (hcap : currentHandSize s * s.players.length ≤ 52)
    (p : Player) (hp : p ∈ s.players) :
    ∃ h, lookupk p.id (((deal s).hands).getD []) = some h ∧
      h.length = (currentHandSize s).toNat := by
  have hlen : ((shuffle fullDeck s.rngSeed).length : Int) = 52 := by
    have hpl : (shuffle fullDeck s.rngSeed).length = fullDeck.length :=
      (shuffle_perm fullDeck s.rngSeed).length_eq
    rw [hpl]
    rfl
  obtain ⟨start, h1, h2, h3⟩ := dealHands_lookup (shuffle fullDeck s.rngSeed)
    (currentHandSize s) hn s.players 0 p hnd hp
  refine ⟨jsSlice (shuffle fullDeck s.rngSeed) start (start + currentHandSize s), h3, ?_⟩
  apply jsSlice_length
  · exact h1
  · exact hn
  · rw [hlen]
    rw [zero_add] at h2
    calc start + currentHandSize s ≤ (s.players.length : Int) * currentHandSize s := h2
      _ = currentHandSize s * s.players.length := mul_comm _ _
      _ ≤ 52 := hcap

theorem C8_capacity_gives_full_hands_witness :
    ∃ h, lookupk "A" (((deal bState).hands).getD []) = some h ∧
      h.length = (currentHandSize bState).toNat :=
  C8_capacity_gives_full_hands bState (by decide) (by decide) (by decide)
    ⟨"A", PlayerKind.human⟩ (by decide)

/-- C8 counterexample: the command sequence `c8Cmds` (START_GAME with hand
size 27 for 2 players) reaches a state violating the deck-capacity bound:
27 * 2 = 54 > 52. -/
theorem C8_cex_capacity_violated :
    Reachable (replay "seed" c8Cmds) ∧
    ¬ (currentHandSize (replay "seed" c8Cmds)
        * ((replay "seed" c8Cmds).players.length : Int) ≤ 52) :=
  ⟨⟨"seed", c8Cmds, rfl⟩, by decide⟩

/-! ### Timer and auto-play (C7) -/

theorem worstBy_mem (f : Card → Nat) : ∀ (l : List Card) (w : Card), worstBy f w l ∈ w :: l := by
  intro l
  induction l with
  | nil =>
    intro w
    exact List.mem_cons_self _ _
  | cons c cs ih =>
    intro w
    simp only [worstBy]
    rcases List.mem_cons.mp (ih (if f w < f c then c else w)) with h | h
    · rw [h]
      split
      · exact List.mem_cons_of_mem _ (List.mem_cons_self _ _)
      · exact List.mem_cons_self _ _
    · exact List.mem_cons_of_mem _ (List.mem_cons_of_mem _ h)

theorem worstBy_ge (f : Card → Nat) : ∀ (l : List Card) (w x : Card),
    x ∈ w :: l → f x ≤ f (worstBy f w l) := by
  intro l
  induction l with
  | nil =>
    intro w x hx
    rcases List.mem_cons.mp hx with rfl | hx'
    · exact le_refl _
    · cases hx'
  | cons c cs ih =>
    intro w x hx
    simp only [worstBy]
    have hw : f w ≤ f (if f w < f c then c else w) := by
      split
      · omega
      · exact le_refl _
    have hc : f c ≤ f (if f w < f c then c else w) := by
      split
      · exact le_refl _
      · omega
    rcases List.mem_cons.mp hx with rfl | hx'
    · exact le_trans hw (ih _ _ (List.mem_cons_self _ _))
    · rcases List.mem_cons.mp hx' with rfl | hx2
      · exact le_trans hc (ih _ _ (List.mem_cons_self _ _))
      · exact ih _ x (List.mem_cons_of_mem _ hx2)

theorem chooseAutoCard_spec (s : GameState) (pid : String) (c : Card)
    (h : chooseAutoCard s pid = some c) : autoCardSpec s pid c := by
  unfold chooseAutoCard at h
  dsimp only at h
  by_cases h1 : handOf s pid = []
  · rw [if_pos h1] at h
    exact Option.noConfusion h
  · rw [if_neg h1] at h
    by_cases h2 : (handOf s pid).filter (fun d => legalToPlay s pid d) = []
    · rw [if_pos h2] at h
      exact Option.noConfusion h
    · rw [if_neg h2] at h
      cases hls : leadSuitOf s with
      | none =>
        rw [hls] at h
        rw [if_neg h2] at h
        cases hleg : (handOf s pid).filter (fun d => legalToPlay s pid d) with
        | nil => exact absurd hleg h2
        | cons c0 cs =>
          rw [hleg] at h
          injection h with h
          subst h
          have hmem : worstBy rankIndex c0 cs ∈ c0 :: cs := worstBy_mem rankIndex cs c0
          rw [← hleg] at hmem
          have hcf := List.mem_filter.mp hmem
          refine ⟨hcf.2, ?_, ?_⟩
          · rintro ⟨d, _, _, hd⟩
            rw [hls] at hd
            exact Option.noConfusion hd
          · intro _ d hdh hdl
            have hdmem : d ∈ c0 :: cs := by
              rw [← hleg]
              exact List.mem_filter.mpr ⟨hdh, hdl⟩
            exact worstBy_ge rankIndex cs c0 d hdmem
      | some ls =>
        rw [hls] at h
        by_cases hpool : ((handOf s pid).filter (fun d => legalToPlay s pid d)).filter
            (fun d => decide (suitOf d = ls)) = []
        · rw [if_pos hpool] at h
          cases hleg : (handOf s pid).filter (fun d => legalToPlay s pid d) with
          | nil => exact absurd hleg h2
          | cons c0 cs =>
            rw [hleg] at h
            injection h with h
            subst h
            have hmem : worstBy rankIndex c0 cs ∈ c0 :: cs := worstBy_mem rankIndex cs c0
            rw [← hleg] at hmem
            have hcf := List.mem_filter.mp hmem
            refine ⟨hcf.2, ?_, ?_⟩
            · rintro ⟨d, hdh, hdl, hd⟩
              rw [hls] at hd
              injection hd with hd
              have : d ∈ ((handOf s pid).filter (fun d => legalToPlay s pid d)).filter
                  (fun d => decide (suitOf d = ls)) :=
                List.mem_filter.mpr ⟨List.mem_filter.mpr ⟨hdh, hdl⟩, by simp [hd]⟩
              rw [hpool] at this
              cases this
            · intro _ d hdh hdl
              have hdmem : d ∈ c0 :: cs := by
                rw [← hleg]
                exact List.mem_filter.mpr ⟨hdh, hdl⟩
              exact worstBy_ge rankIndex cs c0 d hdmem
        · rw [if_neg hpool] at h
          have h' : (match ((handOf s pid).filter (fun d => legalToPlay s pid d)).filter
              (fun d => decide (suitOf d = ls)) with
            | [] => (none : Option Card)
            | c0 :: cs => some (worstBy rankIndex c0 cs)) = some c := h
          cases hpl : ((handOf s pid).filter (fun d => legalToPlay s pid d)).filter
              (fun d => decide (suitOf d = ls)) with
          | nil => exact absurd hpl hpool
          | cons p0 ps =>
            rw [hpl] at h'
            injection h' with h
            subst h
            have hmem : worstBy rankIndex p0 ps ∈ p0 :: ps := worstBy_mem rankIndex ps p0
            rw [← hpl] at hmem
            have hpf := List.mem_filter.mp hmem
            have hlf := List.mem_filter.mp hpf.1
            have hsuit : suitOf (worstBy rankIndex p0 ps) = ls := by
              have := hpf.2
              simpa using this
            refine ⟨hlf.2, ?_, ?_⟩
            · intro _
              refine ⟨by rw [hls, hsuit], ?_⟩
              intro d hdh hdl hd
              rw [hls] at hd
              injection hd with hd
              have hdmem : d ∈ p0 :: ps := by
                rw [← hpl]
                exact List.mem_filter.mpr ⟨List.mem_filter.mpr ⟨hdh, hdl⟩, by simp [hd]⟩
              exact worstBy_ge rankIndex ps p0 d hdmem
            · intro hno
              exact absurd ⟨worstBy rankIndex p0 ps, hlf.1, hlf.2, by rw [hls, hsuit]⟩ hno

theorem chooseAutoCard_empty_hand (s : GameState) (pid : String)
    (h : handOf s pid = []) : chooseAutoCard s pid = none := by
  unfold chooseAutoCard
  dsimp only
  rw [if_pos h]

/-- C7: TICK is valid only in the Trick phase; it decrements the timer by
one, and if the result is still positive only the countdown changes.  If it
reaches zero (or below), the acting player auto-plays: the effect equals
PLAY_CARD of the chosen card, and the chosen card is the lowest-ranked legal
lead-suit card if one exists, else the lowest-ranked legal card overall.  If
the player has no cards, the turn simply rotates. -/
theorem C7_tick_auto_play (s : GameState) (pid : String) :
    (s.phase ≠ Phase.Trick → step s Command.TICK = s) ∧
    (s.phase = Phase.Trick →
      ((s.timer.getD 0) - 1 > 0 →
        step s Command.TICK = { s with timer := some ((s.timer.getD 0) - 1) }) ∧
      ((s.timer.getD 0) - 1 ≤ 0 → s.turn = some pid → pid ≠ "" →
        (∀ c, chooseAutoCard s pid = some c →
          step s Command.TICK = step s (Command.PLAY_CARD pid c) ∧ autoCardSpec s pid c) ∧
        (chooseAutoCard s pid = none → step s Command.TICK = rotateTurn s) ∧
        (handOf s pid = [] → chooseAutoCard s pid = none))) := by
  constructor
  · exact tick_noop s
  · intro hph
    have hstep : step s Command.TICK =
        (if (s.timer.getD 0) - 1 > 0 then { s with timer := some ((s.timer.getD 0) - 1) }
         else autoPlay s) := by
      show (if s.phase ≠ Phase.Trick then s else _) = _
      rw [if_neg (by simp [hph])]
    constructor
    · intro ht
      rw [hstep, if_pos ht]
    · intro ht hturn hpid
      rw [hstep, if_neg (by omega)]
      have hauto : autoPlay s =
          (match chooseAutoCard s pid with
           | none => rotateTurn s
           | some c => playCard s pid c) := by
        unfold autoPlay
        rw [hturn]
        show (if pid = "" then s else _) = _
        rw [if_neg hpid]
      refine ⟨?_, ?_, chooseAutoCard_empty_hand s pid⟩
      · intro c hc
        rw [hauto, hc]
        exact ⟨rfl, chooseAutoCard_spec s pid c hc⟩
      · intro hc
        rw [hauto, hc]

theorem C7_tick_auto_play_witness :
    step tkState Command.TICK = step tkState (Command.PLAY_CARD "A" ⟨5, Suit.spades⟩) ∧
    autoCardSpec tkState "A" ⟨5, Suit.spades⟩ :=
  (((C7_tick_auto_play tkState "A").2 rfl).2 (by decide) rfl (by decide)).1
    ⟨5, Suit.spades⟩ (by decide)

/-! ### Trick resolution (C3) -/

theorem bestBy_mem (f : TrickPlay → Nat) :
    ∀ (l : List TrickPlay) (b : TrickPlay), bestBy f b l ∈ b :: l := by
  intro l
  induction l with
  | nil =>
    intro b
    exact List.mem_cons_self _ _
  | cons p ps ih =>
    intro b
    simp only [bestBy]
    rcases List.mem_cons.mp (ih (if f p < f b then p else b)) with h | h
    · rw [h]
      split
      · exact List.mem_cons_of_mem _ (List.mem_cons_self _ _)
      · exact List.mem_cons_self _ _
    · exact List.mem_cons_of_mem _ (List.mem_cons_of_mem _ h)

theorem bestBy_le (f : TrickPlay → Nat) : ∀ (l : List TrickPlay) (b x : TrickPlay),
    x ∈ b :: l → f (bestBy f b l) ≤ f x := by
  intro l
  induction l with
  | nil =>
    intro b x hx
    rcases List.mem_cons.mp hx with rfl | hx'
    · exact le_refl _
    · cases hx'
  | cons p ps ih =>
    intro b x hx
    simp only [bestBy]
    have hb : f (if f p < f b then p else b) ≤ f b := by
      split
      · omega
      · exact le_refl _
    have hp : f (if f p < f b then p else b) ≤ f p := by
      split
      · exact le_refl _
      · omega
    rcases List.mem_cons.mp hx with rfl | hx'
    · exact le_trans (ih _ _ (List.mem_cons_self _ _)) hb
    · rcases List.mem_cons.mp hx' with rfl | hx2
      · exact le_trans (ih _ _ (List.mem_cons_self _ _)) hp
      · exact ih _ x (List.mem_cons_of_mem _ hx2)

theorem leadWinner_spec (p0 : TrickPlay) (rest : List TrickPlay) :
    ∃ p ∈ p0 :: rest, p.playerId = leadWinner (p0 :: rest) ∧
      suitOf p.card = suitOf p0.card ∧
      ∀ q ∈ p0 :: rest, suitOf q.card = suitOf p0.card →
        rankIndex p.card ≤ rankIndex q.card := by
  have hmem : bestBy (fun q => rankIndex q.card) p0
      (rest.filter (fun q => decide (suitOf q.card = suitOf p0.card))) ∈
      p0 :: rest.filter (fun q => decide (suitOf q.card = suitOf p0.card)) :=
    bestBy_mem _ _ _
  refine ⟨bestBy (fun q => rankIndex q.card) p0
    (rest.filter (fun q => decide (suitOf q.card = suitOf p0.card))), ?_, rfl, ?_, ?_⟩
  · rcases List.mem_cons.mp hmem with h | h
    · rw [h]
      exact List.mem_cons_self _ _
    · exact List.mem_cons_of_mem _ (List.mem_filter.mp h).1
  · rcases List.mem_cons.mp hmem with h | h
    · rw [h]
    · have := (List.mem_filter.mp h).2
      simpa using this
  · intro q hq hqs
    rcases List.mem_cons.mp hq with rfl | hq'
    · exact bestBy_le (fun r => rankIndex r.card) _ _ _ (List.mem_cons_self _ _)
    · refine bestBy_le (fun r => rankIndex r.card) _ _ _ (List.mem_cons_of_mem _ ?_)
      exact List.mem_filter.mpr ⟨hq', by simp [hqs]⟩

theorem pickTrickWinner_spec (plays : List TrickPlay) (trump : Trump) :
    winnerSpec plays trump (pickTrickWinner plays trump) := by
  constructor
  · intro t htr hex
    subst htr
    obtain ⟨p, hp, hsuit⟩ := hex
    cases hf : plays.filter (fun q => decide (suitOf q.card = t)) with
    | nil =>
      exfalso
      have hpf : p ∈ plays.filter (fun q => decide (suitOf q.card = t)) :=
        List.mem_filter.mpr ⟨hp, by simp [hsuit]⟩
      rw [hf] at hpf
      cases hpf
    | cons b bs =>
      have hred : pickTrickWinner plays (Trump.S t)
          = (bestBy (fun q => rankIndex q.card) b bs).playerId := by
        show (match plays.filter (fun q => decide (suitOf q.card = t)) with
          | b :: bs => (bestBy (fun q => rankIndex q.card) b bs).playerId
          | [] => leadWinner plays) = _
        rw [hf]
      rw [hred]
      have hmem : bestBy (fun q => rankIndex q.card) b bs ∈ b :: bs := bestBy_mem _ _ _
      rw [← hf] at hmem
      have hbf := List.mem_filter.mp hmem
      refine ⟨bestBy (fun q => rankIndex q.card) b bs, hbf.1, rfl, by simpa using hbf.2, ?_⟩
      intro q hq hqs
      have hqmem : q ∈ b :: bs := by
        rw [← hf]
        exact List.mem_filter.mpr ⟨hq, by simp [hqs]⟩
      exact bestBy_le (fun r => rankIndex r.card) _ _ _ hqmem
  · intro hnt p0 rest hplays
    subst hplays
    have hlw : pickTrickWinner (p0 :: rest) trump = leadWinner (p0 :: rest) := by
      cases trump with
      | NT => rfl
      | S t =>
        rcases hnt with h | hno
        · exact absurd h (by simp)
        · cases hf : (p0 :: rest).filter (fun q => decide (suitOf q.card = t)) with
          | nil =>
            show (match (p0 :: rest).filter (fun q => decide (suitOf q.card = t)) with
              | b :: bs => (bestBy (fun q => rankIndex q.card) b bs).playerId
              | [] => leadWinner (p0 :: rest)) = _
            rw [hf]
          | cons b bs =>
            exfalso
            have hbmem : b ∈ (p0 :: rest).filter (fun q => decide (suitOf q.card = t)) := by
              rw [hf]
              exact List.mem_cons_self _ _
            have hbf := List.mem_filter.mp hbmem
            exact hno t rfl b hbf.1 (by simpa using hbf.2)
    rw [hlw]
    exact leadWinner_spec p0 rest

/-- C3: an accepted PLAY_CARD resolves the trick exactly when the number of
plays reaches the number of players; on resolution the trick is cleared, the
turn is set to the winner, the winner's tableWins is incremented by one, and
the winner is characterised by `winnerSpec` (highest trump if any trump was
played and trump is not NT, else highest card of the lead suit); otherwise
the trick continues and tableWins is untouched. -/
theorem C3_trick_resolution (s : GameState) (pid : String) (card : Card)
    (hph : s.phase = Phase.Trick) (hh : s.hands.isSome = true)
    (ht : s.turn = some pid) (hl : legalToPlay s pid card = true) :
    ((step s (Command.PLAY_CARD pid card)).trick = none ↔
      (s.trick.getD ⟨pid, []⟩).plays.length + 1 = s.players.length) ∧
    ((s.trick.getD ⟨pid, []⟩).plays.length + 1 = s.players.length →
      (step s (Command.PLAY_CARD pid card)).turn
        = some (pickTrickWinner ((s.trick.getD ⟨pid, []⟩).plays ++ [⟨pid, card⟩]) s.trump) ∧
      (lookupk (pickTrickWinner ((s.trick.getD ⟨pid, []⟩).plays ++ [⟨pid, card⟩]) s.trump)
          (((step s (Command.PLAY_CARD pid card)).tableWins).getD [])).getD 0
        = (lookupk (pickTrickWinner ((s.trick.getD ⟨pid, []⟩).plays ++ [⟨pid, card⟩]) s.trump)
            ((s.tableWins).getD [])).getD 0 + 1 ∧
      winnerSpec ((s.trick.getD ⟨pid, []⟩).plays ++ [⟨pid, card⟩]) s.trump
        (pickTrickWinner ((s.trick.getD ⟨pid, []⟩).plays ++ [⟨pid, card⟩]) s.trump)) ∧
    ((s.trick.getD ⟨pid, []⟩).plays.length + 1 ≠ s.players.length →
      (step s (Command.PLAY_CARD pid card)).tableWins = s.tableWins ∧
      (step s (Command.PLAY_CARD pid card)).trick
        = some ⟨(s.trick.getD ⟨pid, []⟩).leader,
                (s.trick.getD ⟨pid, []⟩).plays ++ [⟨pid, card⟩]⟩) := by
  cases hhs : s.hands with
  | none =>
    rw [hhs] at hh
    exact absurd hh (by simp)
  | some hs0 =>
    have hstep : step s (Command.PLAY_CARD pid card) = playCard s pid card := rfl
    rw [hstep]
    unfold playCard
    rw [if_neg (by simp [hph, hhs]), if_neg (by simp [ht]), if_neg (by simp [hl])]
    dsimp only
    by_cases hlen :
        ((s.trick.getD ⟨pid, []⟩).plays ++ [(⟨pid, card⟩ : TrickPlay)]).length
          = s.players.length
    · rw [if_pos hlen]
      have hlen' : (s.trick.getD ⟨pid, []⟩).plays.length + 1 = s.players.length := by
        simpa using hlen
      refine ⟨?_, ?_, ?_⟩
      · split
        · exact iff_of_true rfl hlen'
        · exact iff_of_true rfl hlen'
      · intro _
        refine ⟨?_, ?_, pickTrickWinner_spec _ _⟩
        · split
          · rfl
          · rfl
        · split
          · rw [Option.getD_some, lookupk_setk_self, Option.getD_some]
          · rw [Option.getD_some, lookupk_setk_self, Option.getD_some]
      · intro hne
        exact absurd hlen' hne
    · rw [if_neg hlen]
      have hlen' : ¬ ((s.trick.getD ⟨pid, []⟩).plays.length + 1 = s.players.length) := by
        simpa using hlen
      refine ⟨?_, ?_, ?_⟩
      · exact iff_of_false (by simp) hlen'
      · intro hc
        exact absurd hc hlen'
      · intro _
        exact ⟨rfl, rfl⟩

theorem C3_trick_resolution_witness :
    (step tkState (Command.PLAY_CARD "A" ⟨5, Suit.spades⟩)).turn
      = some (pickTrickWinner
          [⟨"B", ⟨0, Suit.spades⟩⟩, ⟨"A", ⟨5, Suit.spades⟩⟩] tkState.trump) :=
  ((C3_trick_resolution tkState "A" ⟨5, Suit.spades⟩ rfl rfl rfl (by decide)).2.1
    (by decide)).1

/-! ### Reachability invariant (C9) -/

theorem findIdx_get_nodup (players : List Player) :
    (players.map Player.id).Nodup →
    ∀ (i : Nat) (hi : i < players.length),
    players.findIdx? (fun p => p.id == (players.get ⟨i, hi⟩).id) = some i := by
  induction players with
  | nil =>
    intro _ i hi
    simp at hi
  | cons q qs ih =>
    intro hnd i hi
    simp only [List.map_cons, List.nodup_cons] at hnd
    cases i with
    | zero =>
      rw [List.findIdx?_cons]
      simp
    | succ j =>
      have hj : j < qs.length := by simpa using hi
      have hmem : (qs.get ⟨j, hj⟩).id ∈ qs.map Player.id :=
        List.mem_map_of_mem _ (qs.get_mem j hj)
      have hne : (q.id == (qs.get ⟨j, hj⟩).id) = false := by
        rw [beq_eq_false_iff_ne]
        intro he
        exact hnd.1 (he ▸ hmem)
      have hget : (q :: qs).get ⟨j + 1, hi⟩ = qs.get ⟨j, hj⟩ := rfl
      have hcons : (q :: qs).findIdx? (fun p => p.id == (qs.get ⟨j, hj⟩).id)
          = if (q.id == (qs.get ⟨j, hj⟩).id) then some 0
            else ((qs.findIdx? (fun p => p.id == (qs.get ⟨j, hj⟩).id)).map (· + 1)) := by
        simp [List.findIdx?_cons]
      rw [hget, hcons, hne]
      rw [if_neg (by simp)]
      rw [ih hnd.2 j hj]
      rfl

theorem nextAfter_get (players : List Player)
    (hnd : (players.map Player.id).Nodup)
    (i : Nat) (hi : i < players.length) (j : Nat) (hj : j < players.length)
    (hij : (i + 1) % players.length = j) :
    nextAfter (players.get ⟨i, hi⟩).id players = (players.get ⟨j, hj⟩).id := by
  unfold nextAfter
  rw [findIdx_get_nodup players hnd i hi]
  show (match players.get? ((Option.getD (some i) 0 + 1) % players.length) with
    | some p => p.id
    | none => "") = _
  rw [show (Option.getD (some i) 0 + 1) % players.length = j from by simpa using hij]
  rw [List.get?_eq_get hj]

theorem exists_last_bidder (s : GameState)
    (hnd : (s.players.map Player.id).Nodup)
    (hlen : 2 ≤ s.players.length) (hli : s.leadIndex < s.players.length) :
    ∃ pL : Player, pL ∈ s.players ∧ isLastBidder s pL.id = true := by
  obtain ⟨j, hj, hmod⟩ : ∃ j, j < s.players.length ∧
      (j + 1) % s.players.length = s.leadIndex := by
    by_cases h0 : s.leadIndex = 0
    · refine ⟨s.players.length - 1, by omega, ?_⟩
      rw [Nat.sub_add_cancel (by omega), Nat.mod_self, h0]
    · refine ⟨s.leadIndex - 1, by omega, ?_⟩
      rw [Nat.sub_add_cancel (by omega)]
      exact Nat.mod_eq_of_lt hli
  refine ⟨s.players.get ⟨j, hj⟩, s.players.get_mem j hj, ?_⟩
  have hleader : leaderIdOf s = some ((s.players.get ⟨s.leadIndex, hli⟩).id) := by
    unfold leaderIdOf
    rw [List.get?_eq_get hli]
    rfl
  unfold isLastBidder
  rw [hleader]
  show (nextAfter (s.players.get ⟨j, hj⟩).id s.players
    == (s.players.get ⟨s.leadIndex, hli⟩).id) = true
  rw [nextAfter_get s.players hnd j hj s.leadIndex hli hmod]
  exact beq_self_eq_true _

theorem Inv_startHand (s : GameState) (hA : (s.players.map Player.id).Nodup)
    (hlen : 2 ≤ s.players.length) (hli : s.leadIndex < s.players.length) :
    Inv (startHand s) := by
  refine ⟨hA, List.nodup_nil, ?_, ?_⟩
  · intro _
    exact ⟨hlen, hli⟩
  · intro _
    constructor
    · intro kv hkv
      cases hkv
    · intro _ pid _
      rfl

theorem Inv_rotateTurn (s : GameState) (h : Inv s) : Inv (rotateTurn s) := by
  unfold rotateTurn
  split
  · exact h
  · split
    · exact h
    · exact ⟨h.1, h.2.1, h.2.2.1, h.2.2.2⟩

theorem Inv_playCard (s : GameState) (pid : String) (card : Card) (h : Inv s) :
    Inv (playCard s pid card) := by
  by_cases h1 : s.phase ≠ Phase.Trick ∨ s.hands = none
  · rw [playCard_noop s pid card (by tauto)]
    exact h
  · push_neg at h1
    have hphase : s.phase = Phase.Trick := not_ne_iff.mp (fun hx => hx h1.1) |>.symm ▸ h1.1
    by_cases h2 : s.turn ≠ some pid
    · rw [playCard_noop s pid card (Or.inr (Or.inr (Or.inl h2)))]
      exact h
    · by_cases h3 : legalToPlay s pid card = false
      · rw [playCard_noop s pid card (Or.inr (Or.inr (Or.inr h3)))]
        exact h
      · have hsneq : s.phase ≠ Phase.Lobby := by
          rw [hphase]
          simp
        have hlt : legalToPlay s pid card = true :=
          (Bool.eq_false_or_eq_true _).resolve_right h3
        unfold playCard
        rw [if_neg (by tauto), if_neg h2, if_neg (by simp [hlt])]
        dsimp only
        split
        · split
          · refine ⟨h.1, h.2.1, fun _ => h.2.2.1 hsneq, ?_⟩
            intro hx
            have hx2 : s.phase = Phase.Bidding := hx
            rw [hphase] at hx2
            exact Phase.noConfusion hx2
          · refine ⟨h.1, h.2.1, fun _ => h.2.2.1 hsneq, ?_⟩
            intro hx
            exact Phase.noConfusion hx
        · refine ⟨h.1, h.2.1, fun _ => h.2.2.1 hsneq, ?_⟩
          intro hx
          have hx2 : s.phase = Phase.Bidding := hx
          rw [hphase] at hx2
          exact Phase.noConfusion hx2

theorem Inv_step (s : GameState) (c : Command) (h : Inv s) : Inv (step s c) := by
  cases c with
  | ADD_PLAYER pid kind =>
    by_cases h1 : s.players.length ≥ 7
    · rw [addPlayer_noop s pid kind (Or.inl h1)]
      exact h
    · by_cases h2 : s.phase ≠ Phase.Lobby
      · rw [addPlayer_noop s pid kind (Or.inr (Or.inl h2))]
        exact h
      · by_cases h3 : s.players.any (fun p => p.id == pid) = true
        · rw [addPlayer_noop s pid kind (Or.inr (Or.inr h3))]
          exact h
        · show Inv (if s.players.length ≥ 7 then s
            else if s.phase ≠ Phase.Lobby then s
            else if s.players.any (fun p => p.id == pid) then s
            else { s with players :=
              s.players ++ [Player.mk pid (kind.getD PlayerKind.human)] })
          rw [if_neg h1, if_neg h2, if_neg h3]
          have hpidnot : pid ∉ s.players.map Player.id := by
            intro hmem
            rcases List.mem_map.mp hmem with ⟨p, hp, hpe⟩
            exact h3 (List.any_eq_true.mpr ⟨p, hp, by simp [hpe]⟩)
          have hphL : s.phase = Phase.Lobby := not_not.mp h2
          refine ⟨?_, h.2.1, ?_, ?_⟩
          · show ((s.players ++ [Player.mk pid (kind.getD PlayerKind.human)]).map Player.id).Nodup
            rw [List.map_append]
            rw [List.nodup_append]
            refine ⟨h.1, List.nodup_singleton _, ?_⟩
            intro a ha hb
            simp only [List.map_cons, List.map_nil, List.mem_singleton] at hb
            subst hb
            exact hpidnot ha
          · intro hx
            have hx2 : s.phase ≠ Phase.Lobby := hx
            exact absurd hx2 h2
          · intro hx
            have hx2 : s.phase = Phase.Bidding := hx
            rw [hphL] at hx2
            exact Phase.noConfusion hx2
  | START_GAME hs ts sc =>
    by_cases h1 : s.phase ≠ Phase.Lobby ∨ s.players.length < 2
    · rw [startGame_noop s hs ts sc h1]
      exact h
    · push_neg at h1
      show Inv (if s.phase ≠ Phase.Lobby ∨ s.players.length < 2 then s else _)
      rw [if_neg (by push_neg; exact h1)]
      try dsimp only
      apply Inv_startHand
      · exact h.1
      · exact h1.2
      · show 0 < s.players.length
        omega
  | PLACE_BID pid bid =>
    show Inv (placeBid s pid bid)
    by_cases h1 : s.phase ≠ Phase.Bidding
    · rw [placeBid_noop s pid bid (Or.inl h1)]
      exact h
    · by_cases h2 : s.turn ≠ some pid
      · rw [placeBid_noop s pid bid (Or.inr (Or.inl h2))]
        exact h
      · by_cases h3 : bid < 0 ∨ bid > currentHandSize s
        · rcases h3 with h3 | h3
          · rw [placeBid_noop s pid bid (Or.inr (Or.inr (Or.inl h3)))]
            exact h
          · rw [placeBid_noop s pid bid (Or.inr (Or.inr (Or.inr (Or.inl h3))))]
            exact h
        · by_cases h4 : isLastBidder s pid = true ∧
              sumBids s.bids + bid = currentHandSize s
          · rw [placeBid_noop s pid bid (Or.inr (Or.inr (Or.inr (Or.inr h4))))]
            exact h
          · have hphB : s.phase = Phase.Bidding := not_not.mp h1
            have hsneq : s.phase ≠ Phase.Lobby := by
              rw [hphB]
              simp
            have hD := h.2.2.2 hphB
            push_neg at h3
            unfold placeBid
            rw [if_neg h1, if_neg h2, if_neg (by push_neg; exact h3), if_neg h4]
            dsimp only
            split
            · refine ⟨h.1, nodup_fst_setk _ _ _ h.2.1, fun _ => h.2.2.1 hsneq, ?_⟩
              intro hx
              exact Phase.noConfusion hx
            · refine ⟨h.1, nodup_fst_setk _ _ _ h.2.1, fun _ => h.2.2.1 hsneq, ?_⟩
              intro _
              constructor
              · intro kv hkv
                rcases mem_setk _ _ _ _ hkv with rfl | hkv'
                · exact ⟨h3.1, h3.2⟩
                · exact hD.1 kv hkv'
              · intro hz pidL hL
                have hz' : currentHandSize s = 0 := hz
                have hLs : isLastBidder s pidL = true := hL
                have hlast_ne : ¬ isLastBidder s pid = true := by
                  intro hlp
                  apply h4
                  refine ⟨hlp, ?_⟩
                  have hb0 : ∀ kv ∈ s.bids, kv.2 = (0 : Int) := by
                    intro kv hkv
                    have hbd := hD.1 kv hkv
                    omega
                  have hs0 : sumBids s.bids = 0 := sumBids_eq_zero _ hb0
                  omega
                have hpid_ne : pid ≠ pidL := by
                  intro he
                  exact hlast_ne (he ▸ hLs)
                show lookupk pidL (setk pid bid s.bids) = none
                rw [lookupk_setk_ne _ _ _ _ hpid_ne]
                exact hD.2 hz' pidL hLs
  | SET_TRUMP tr =>
    show Inv (setTrump s tr)
    unfold setTrump
    split
    · exact h
    · exact ⟨h.1, h.2.1, h.2.2.1, h.2.2.2⟩
  | PLAY_CARD pid card => exact Inv_playCard s pid card h
  | TICK =>
    by_cases h1 : s.phase ≠ Phase.Trick
    · rw [tick_noop s h1]
      exact h
    · show Inv (if s.phase ≠ Phase.Trick then s else _)
      rw [if_neg h1]
      try dsimp only
      split
      · exact ⟨h.1, h.2.1, h.2.2.1, h.2.2.2⟩
      · unfold autoPlay
        split
        · exact h
        · split
          · exact h
          · split
            · exact Inv_rotateTurn s h
            · exact Inv_playCard s _ _ h
  | NEXT_TURN => exact Inv_rotateTurn s h
  | NEXT_HAND =>
    by_cases h1 : s.phase ≠ Phase.Scoring
    · rw [nextHand_noop s h1]
      exact h
    · have hphS : s.phase = Phase.Scoring := not_not.mp h1
      have hsneq : s.phase ≠ Phase.Lobby := by
        rw [hphS]
        simp
      have hC := h.2.2.1 hsneq
      show Inv (if s.phase ≠ Phase.Scoring then s else _)
      rw [if_neg h1]
      try dsimp only
      split
      · refine ⟨h.1, List.nodup_nil, fun _ => hC, ?_⟩
        intro hx
        exact Phase.noConfusion hx
      · apply Inv_startHand
        · exact h.1
        · exact hC.1
        · show (s.leadIndex + 1) % s.players.length < s.players.length
          exact Nat.mod_lt _ (by omega)

theorem Inv_foldl (cmds : List Command) : ∀ s, Inv s → Inv (cmds.foldl step s) := by
  induction cmds with
  | nil =>
    intro s h
    exact h
  | cons c cs ih =>
    intro s h
    exact ih _ (Inv_step s c h)

theorem Inv_initialState (seed : String) : Inv (initialState seed) := by
  refine ⟨List.nodup_nil, List.nodup_nil, ?_, ?_⟩
  · intro hx
    exact absurd rfl hx
  · intro hx
    exact Phase.noConfusion hx

theorem Inv_reachable (s : GameState) (h : Reachable s) : Inv s := by
  obtain ⟨seed, cmds, rfl⟩ := h
  exact Inv_foldl cmds _ (Inv_initialState seed)

/-- C9: in every reachable Bidding state whose current hand size is 0, every
PLACE_BID issued by the designated last bidder is rejected (out-of-range
values by the range check, and 0 by the forbidden-sum rule, since all placed
bids are 0), and no command whatsoever moves the state out of the Bidding
phase: the hand is deadlocked. -/
theorem C9_zero_hand_deadlock (s : GameState) (hr : Reachable s)
    (hph : s.phase = Phase.Bidding) (hz : currentHandSize s = 0) :
    (∀ pid bid, isLastBidder s pid = true → step s (Command.PLACE_BID pid bid) = s) ∧
    (∀ c, (step s c).phase = Phase.Bidding) := by
  obtain ⟨hA, hB, hCf, hDf⟩ := Inv_reachable s hr
  have hC := hCf (by rw [hph]; simp)
  have hD := hDf hph
  have hsum : sumBids s.bids = 0 := by
    apply sumBids_eq_zero
    intro kv hkv
    have hbd := hD.1 kv hkv
    omega
  constructor
  · intro pid bid hlast
    by_cases h2 : s.turn ≠ some pid
    · exact placeBid_noop s pid bid (Or.inr (Or.inl h2))
    · by_cases h3 : bid < 0 ∨ bid > currentHandSize s
      · rcases h3 with h3 | h3
        · exact placeBid_noop s pid bid (Or.inr (Or.inr (Or.inl h3)))
        · exact placeBid_noop s pid bid (Or.inr (Or.inr (Or.inr (Or.inl h3))))
      · push_neg at h3
        exact placeBid_noop s pid bid
          (Or.inr (Or.inr (Or.inr (Or.inr ⟨hlast, by omega⟩))))
  · intro c
    cases c with
    | ADD_PLAYER pid kind =>
      rw [addPlayer_noop s pid kind (Or.inr (Or.inl (by rw [hph]; simp)))]
      exact hph
    | START_GAME hs ts sc =>
      rw [startGame_noop s hs ts sc (Or.inl (by rw [hph]; simp))]
      exact hph
    | SET_TRUMP tr =>
      show (setTrump s tr).phase = Phase.Bidding
      unfold setTrump
      split
      · exact hph
      · exact hph
    | PLAY_CARD pid card =>
      show (playCard s pid card).phase = Phase.Bidding
      rw [playCard_noop s pid card (Or.inl (by rw [hph]; simp))]
      exact hph
    | TICK =>
      rw [tick_noop s (by rw [hph]; simp)]
      exact hph
    | NEXT_HAND =>
      rw [nextHand_noop s (by rw [hph]; simp)]
      exact hph
    | NEXT_TURN =>
      show (rotateTurn s).phase = Phase.Bidding
      unfold rotateTurn
      split
      · exact hph
      · split
        · exact hph
        · exact hph
    | PLACE_BID pid bid =>
      show (placeBid s pid bid).phase = Phase.Bidding
      by_cases h2 : s.turn ≠ some pid
      · rw [placeBid_noop s pid bid (Or.inr (Or.inl h2))]
        exact hph
      · by_cases h3 : bid < 0 ∨ bid > currentHandSize s
        · rcases h3 with h3 | h3
          · rw [placeBid_noop s pid bid (Or.inr (Or.inr (Or.inl h3)))]
            exact hph
          · rw [placeBid_noop s pid bid (Or.inr (Or.inr (Or.inr (Or.inl h3))))]
            exact hph
        · push_neg at h3
          by_cases h4 : isLastBidder s pid = true
          · rw [placeBid_noop s pid bid
              (Or.inr (Or.inr (Or.inr (Or.inr ⟨h4, by omega⟩))))]
            exact hph
          · unfold placeBid
            rw [if_neg (by simp [hph]), if_neg h2, if_neg (by push_neg; exact h3),
              if_neg (by tauto)]
            try dsimp only
            obtain ⟨pL, hpLmem, hpLlast⟩ := exists_last_bidder s hA hC.1 hC.2
            have hpLnone : lookupk pL.id s.bids = none := hD.2 hz pL.id hpLlast
            have hpid_ne : pid ≠ pL.id := by
              intro he
              exact h4 (he ▸ hpLlast)
            have hnotall : (s.players.all
                (fun p => (lookupk p.id (setk pid bid s.bids)).isSome)) = false := by
              by_contra hall
              rw [Bool.not_eq_false] at hall
              have hsome := List.all_eq_true.mp hall pL hpLmem
              rw [lookupk_setk_ne _ _ _ _ hpid_ne, hpLnone] at hsome
              simp at hsome
            rw [if_neg (by simp [hnotall])]
            exact hph

theorem C9_zero_hand_deadlock_witness :
    step (replay "seed" c9Cmds) (Command.PLACE_BID "B" 0) = replay "seed" c9Cmds ∧
    (step (replay "seed" c9Cmds) (Command.PLACE_BID "A" 0)).phase = Phase.Bidding :=
  ⟨(C9_zero_hand_deadlock (replay "seed" c9Cmds) ⟨"seed", c9Cmds, rfl⟩
      (by decide) (by decide)).1 "B" 0 (by decide),
   (C9_zero_hand_deadlock (replay "seed" c9Cmds) ⟨"seed", c9Cmds, rfl⟩
      (by decide) (by decide)).2 (Command.PLACE_BID "A" 0)⟩

end Plump
